import Mathlib

/-!
Verification of the aggregator-threadpool repository: a news aggregator
(src/news-aggregator.cc, src/news-aggregator.h) built on a bounded worker
pool (src/thread-pool.cc, src/thread-pool.h).  The C++ operations are
shallowly embedded below as Lean functions and as small transition systems
(for the concurrent parts), and the specification claims are settled as
theorems about those embeddings.
-/

/-- An article as in the repository's data model: a (title, url) pair of
strings, value-copied into tasks. -/
structure Article where
  title : String
  url : String
deriving DecidableEq

/-- Embedding of the std::set_intersection call at src/news-aggregator.cc:209,
specialised to two ascending sorted string ranges: advance the side with the
smaller head, emit the common head when the heads are equal (multiset
semantics: an element occurring m and n times is emitted min m n times). -/
def intersectSorted : List String → List String → List String
  | [], _ => []
  | _ :: _, [] => []
  | a :: as, b :: bs =>
    if a < b then intersectSorted as (b :: bs)
    else if b < a then intersectSorted (a :: as) bs
    else a :: intersectSorted as bs
termination_by x y => x.length + y.length

/-- Embedding of the per-key update performed by an article task under
intermediateIndexLock (src/news-aggregator.cc:202-216): if the key has no
entry yet, store the current article with its sorted token list; otherwise
store the current article with its url replaced by the smaller of the
existing and the current url, paired with the sorted intersection of the
existing token list and the current sorted token list. -/
def updateEntry (cur : Article) (sortedTokens : List String) :
    Option (Article × List String) → Article × List String
  | none => (cur, sortedTokens)
  | some (old, oldTokens) =>
      ({ cur with url := if old.url < cur.url then old.url else cur.url },
       intersectSorted oldTokens sortedTokens)

/-- Folding the article-task update over a list of (article, raw tokens)
pairs that all reach the same merge key, starting from a given entry state.
Each task first sorts its raw token list (src/news-aggregator.cc:199-200)
and then performs the locked update. -/
def mergeFold (l : List (Article × List String)) (e : Option (Article × List String)) :
    Option (Article × List String) :=
  l.foldl (fun acc p => some (updateEntry p.1 (List.insertionSort (· ≤ ·) p.2) acc)) e

/-- The entry stored for a merge key after the k article tasks carrying the
given (article, raw tokens) pairs have all run, in the given order, starting
from an absent entry. -/
def runMerge (l : List (Article × List String)) : Option (Article × List String) :=
  mergeFold l none

/-- The infimum, in `WithTop α`, of a list of elements of a meet
semilattice, computed through the multiset of the list so that it is
invariant under permutation by construction. -/
def infWT {α : Type} [SemilatticeInf α] (l : List α) : WithTop α :=
  ((l.map (fun (a : α) => (a : WithTop α))) : Multiset (WithTop α)).inf

/-- The merge key computed by an article task (src/news-aggregator.cc:188):
the pair of the article's title and the server of its URL.  The server
extractor getURLServer lives in the course-provided utils library, which is
not part of src/, so it is kept abstract as a parameter; every property
proved below holds for an arbitrary extractor. -/
def mergeKey (server : String → String) (a : Article) : String × String :=
  (a.title, server a.url)

/-- Lookup in the intermediate index, embedded as an association list keyed
by merge keys (std::map count/operator-access at src/news-aggregator.cc:203-209). -/
def lookupEntry (k : String × String) :
    List ((String × String) × (Article × List String)) → Option (Article × List String)
  | [] => none
  | kv :: rest => if k = kv.1 then some kv.2 else lookupEntry k rest

/-- Store a value under a key in the intermediate index: replace the first
binding of the key if present, append otherwise (std::map operator[]
assignment at src/news-aggregator.cc:210 and 214). -/
def insertEntry (k : String × String) (v : Article × List String) :
    List ((String × String) × (Article × List String)) →
    List ((String × String) × (Article × List String))
  | [] => [(k, v)]
  | kv :: rest => if k = kv.1 then (k, v) :: rest else kv :: insertEntry k v rest

/-- The whole locked intermediate-index update of one article task
(src/news-aggregator.cc:199-216): sort the raw token list, then insert or
merge the entry under the article's merge key via updateEntry. -/
def articleMerge (server : String → String)
    (m : List ((String × String) × (Article × List String)))
    (a : Article) (rawTokens : List String) :
    List ((String × String) × (Article × List String)) :=
  let sortedTokens := List.insertionSort (· ≤ ·) rawTokens
  insertEntry (mergeKey server a)
    (updateEntry a sortedTokens (lookupEntry (mergeKey server a) m)) m

/-- The implicit invariant of the intermediate index claimed for every
stored entry: the stored article's title equals the key's title component,
the server of the stored article's URL equals the key's server component,
and the stored token list is ascending. -/
def MergeInv (server : String → String)
    (m : List ((String × String) × (Article × List String))) : Prop :=
  ∀ k e, lookupEntry k m = some e →
    e.1.title = k.1 ∧ server e.1.url = k.2 ∧ e.2.Sorted (· ≤ ·)

/-- The external collaborators of one crawl run, by their interfaces:
the parsed top-level feed list (RSSFeedList::parse + getFeeds), the parsed
article list of a feed (RSSFeed::parse + getArticles), the parsed token
list of a document (HTMLDocument::parse + getTokens), and the URL server
extractor.  A parse failure is an `Except.error`. -/
structure Env where
  feedList : Except Unit (List (String × String))
  feedArticles : String → Except Unit (List Article)
  docTokens : String → Except Unit (List String)
  urlServer : String → String

/-- The mutable state of one NewsAggregator instance: the built flag, the
seen-URL set, the intermediate index, the add calls flushed into the
RSSIndex, and the tasks submitted to the two pools (recorded for the
claims about submission). -/
structure AggState where
  built : Bool
  seenURLs : List String
  intermediateIndex : List ((String × String) × (Article × List String))
  indexAdds : List (Article × List String)
  feedTasks : List (String × String)
  articleTasks : List Article
deriving DecidableEq

/-- The body of one article task (src/news-aggregator.cc:176-217): claim the
article URL in the seen-URL set (return early if already claimed), parse the
document (return early on failure), then merge into the intermediate index.
The pools are sequentialised here into one canonical execution order; the
order-independence of the merge itself is the subject of runMerge. -/
def articleTask (env : Env) (st : AggState) (a : Article) : AggState :=
  if a.url ∈ st.seenURLs then st
  else
    let st1 := { st with seenURLs := a.url :: st.seenURLs }
    match env.docTokens a.url with
    | Except.error _ => st1
    | Except.ok toks =>
        { st1 with intermediateIndex := articleMerge env.urlServer st1.intermediateIndex a toks }

/-- The body of one feed task plus launchArticlePool
(src/news-aggregator.cc:142-169 and 174-220): claim the feed URL, parse the
feed (return early on failure), return early when the article list is
empty, otherwise submit one article task per article and run them. -/
def feedTask (env : Env) (st : AggState) (f : String × String) : AggState :=
  if f.1 ∈ st.seenURLs then st
  else
    let st1 := { st with seenURLs := f.1 :: st.seenURLs }
    match env.feedArticles f.1 with
    | Except.error _ => st1
    | Except.ok articles =>
        if articles.isEmpty then st1
        else
          let st2 := { st1 with articleTasks := st1.articleTasks ++ articles }
          articles.foldl (articleTask env) st2

/-- NewsAggregator::processAllFeeds (src/news-aggregator.cc:118-138): on a
feed-list parse failure return unchanged (the exception is caught); on an
empty mapping return unchanged; otherwise submit one feed task per feed,
run the two pools, and flush every intermediate-index entry into the
RSSIndex. -/
def processAllFeeds (env : Env) (st : AggState) : AggState :=
  match env.feedList with
  | Except.error _ => st
  | Except.ok feeds =>
      if feeds.isEmpty then st
      else
        let st1 := { st with feedTasks := st.feedTasks ++ feeds }
        let st2 := feeds.foldl (feedTask env) st1
        { st2 with indexAdds := st2.indexAdds ++ st2.intermediateIndex.map (fun kv => kv.2) }

/-- NewsAggregator::buildIndex (src/news-aggregator.cc:67-75): return
immediately when the built flag is set, otherwise set it (before any
processing) and run processAllFeeds. -/
def buildIndex (env : Env) (st : AggState) : AggState :=
  if st.built then st
  else processAllFeeds env { st with built := true }

/-- A NewsAggregator directly after construction
(src/news-aggregator.cc:116): built is false and all containers are empty. -/
def initAgg : AggState :=
  { built := false, seenURLs := [], intermediateIndex := [],
    indexAdds := [], feedTasks := [], articleTasks := [] }

/-- The worker bookkeeping touched by one ThreadPool worker iteration:
the pending-thunk counter, the worker's in-use flag, and the number of
workerIsAvailable signals issued. -/
structure PoolBook where
  pendingThunks : Int
  workerInUse : Bool
  availableSignals : Nat
deriving DecidableEq

/-- One iteration of ThreadPool::worker after receiving a thunk
(src/thread-pool.cc:78-92): run the thunk, then decrement the pending
counter, mark the worker free, and signal worker availability.  The thunk's
outcome is its argument; the worker body wraps the call in no handler, so a
faulting thunk propagates its fault out of the worker (in C++ this escapes
the thread function) and none of the bookkeeping below it runs. -/
def workerRunThunk (st : PoolBook) (thunkOutcome : Except String Unit) :
    Except String PoolBook :=
  match thunkOutcome with
  | Except.error e => Except.error e
  | Except.ok _ =>
      Except.ok { pendingThunks := st.pendingThunks - 1, workerInUse := false,
                  availableSignals := st.availableSignals + 1 }

/-- The dispatcher-relevant pool state: the per-worker in-use flags
(workerVector[i].workerInUse), which worker slots have had a thread spawned
into them, and nextSpawnID (src/thread-pool.h:69-74). -/
structure PoolWorkers where
  inUse : List Bool
  spawned : List Bool
  nextSpawnID : Nat
deriving DecidableEq

/-- The dispatcher's selection loop over candidate worker IDs
(src/thread-pool.cc:39-56): when the candidate index equals nextSpawnID a
new worker thread is spawned there and nextSpawnID is incremented; the
first candidate whose in-use flag is clear is marked busy and selected. -/
def scanLoop (inUse spawned : List Bool) (next : Nat) :
    List Nat → List Bool × List Bool × Nat × Option Nat
  | [] => (inUse, spawned, next, none)
  | i :: rest =>
      let spawned1 := if i = next then spawned.set i true else spawned
      let next1 := if i = next then next + 1 else next
      if inUse.getD i true then scanLoop inUse spawned1 next1 rest
      else (inUse.set i true, spawned1, next1, some i)

/-- One full dispatcher iteration's worker selection, scanning candidates
0 .. workerVector.size() - 1 (src/thread-pool.cc:41). -/
def dispatchOnce (st : PoolWorkers) : PoolWorkers × Option Nat :=
  let r := scanLoop st.inUse st.spawned st.nextSpawnID (List.range st.inUse.length)
  (⟨r.1, r.2.1, r.2.2.1⟩, r.2.2.2)

/-- Events acting on the dispatcher-relevant pool state: one dispatcher
iteration (triggered by a scheduled thunk), or a worker marking itself free
after finishing a thunk (src/thread-pool.cc:87-89). -/
inductive PoolEvent
  | dispatch
  | free (j : Nat)

/-- Apply one pool event. -/
def applyEvent (st : PoolWorkers) : PoolEvent → PoolWorkers
  | PoolEvent.dispatch => (dispatchOnce st).1
  | PoolEvent.free j => { st with inUse := st.inUse.set j false }

/-- A freshly constructed pool with maxWorkers = M
(src/thread-pool.cc:14-16): M worker slots, none in use, none spawned,
nextSpawnID = 0. -/
def initPool (M : Nat) : PoolWorkers :=
  { inUse := List.replicate M false, spawned := List.replicate M false, nextSpawnID := 0 }

/-- The pool state after an arbitrary interleaving of dispatcher
iterations and worker-free events, starting from a fresh pool. -/
def runPool (M : Nat) (evts : List PoolEvent) : PoolWorkers :=
  evts.foldl applyEvent (initPool M)

/-- The state of one ThreadPool::schedule call racing with one
ThreadPool::wait call: the number of thunks pushed onto thunkQueue, the
pendingThunks counter, the scheduler's position (0 = before the push under
queueLock, 1 = after the push but before the increment under
pendingThunksLock, 2 = done), and whether the wait call has returned. -/
structure SubmitWaitState where
  queueLen : Nat
  pending : Nat
  submitPC : Nat
  waitReturned : Bool
deriving DecidableEq

/-- Atomic steps of the schedule/wait race, as the two critical sections of
ThreadPool::schedule (src/thread-pool.cc:19-21 and 23-25) and the predicate
check of ThreadPool::wait under pendingThunksLock (src/thread-pool.cc:98-99).
wait can return only by observing a zero counter. -/
inductive SubmitWaitStep : SubmitWaitState → SubmitWaitState → Prop
  | push (s : SubmitWaitState) : s.submitPC = 0 →
      SubmitWaitStep s { s with queueLen := s.queueLen + 1, submitPC := 1 }
  | count (s : SubmitWaitState) : s.submitPC = 1 →
      SubmitWaitStep s { s with pending := s.pending + 1, submitPC := 2 }
  | waitCheck (s : SubmitWaitState) : s.pending = 0 →
      SubmitWaitStep s { s with waitReturned := true }

/-- Initial schedule/wait race state: empty queue, zero counter, scheduler
about to run, wait not yet returned. -/
def swInit : SubmitWaitState :=
  { queueLen := 0, pending := 0, submitPC := 0, waitReturned := false }

/-- Reachability in the schedule/wait race. -/
def SWReach : SubmitWaitState → SubmitWaitState → Prop :=
  Relation.ReflTransGen SubmitWaitStep

/-- The coordinator-level state of one crawl run over the two pools.
`arts` (a parameter of the step relation) fixes, per feed task, how many
article tasks that feed task will submit (0 for a feed task that returns
early).  The state records how many feed tasks the coordinator has
submitted, how many article tasks each feed task has submitted so far,
which feed tasks have returned, how many article tasks have completed, and
whether the coordinator has started the flush loop. -/
structure CrawlState where
  feedsSubmitted : Nat
  subm : List Nat
  exited : List Bool
  waited : List Bool
  artDone : Nat
  flushed : Bool
deriving DecidableEq

/-- Total number of article tasks submitted so far. -/
def totalSubm (st : CrawlState) : Nat := st.subm.sum

/-- Interleaved steps of one crawl run (src/news-aggregator.cc:118-220):
the coordinator submits feed tasks one at a time (launchFeedPool's loop); a
running feed task submits its article tasks one at a time
(launchArticlePool's loop, only before its own articlePool.wait() call); an
article task completes and is counted; a feed task that submitted articles
has its articlePool.wait() call return upon observing a drained article
pool (observeDrain, necessarily after its own last submission); a feed task
returns - its wait must have returned first when it submitted any articles,
while a feed task with no articles (duplicate URL, parse failure or empty
feed) returns without waiting; the coordinator starts the flush loop only
after submitting every feed task and observing via feedPool.wait() that all
of them have returned.  Distinguishing observeDrain from exitFeed lets
other feed tasks submit between a wait returning and that feed task
returning, as the real interleavings allow. -/
inductive CrawlStep (arts : List Nat) : CrawlState → CrawlState → Prop
  | submitFeed (s : CrawlState) : s.feedsSubmitted < arts.length →
      CrawlStep arts s { s with feedsSubmitted := s.feedsSubmitted + 1 }
  | submitArticle (s : CrawlState) (i : Nat) : i < s.feedsSubmitted →
      s.exited.getD i true = false →
      s.waited.getD i false = false →
      s.subm.getD i 0 < arts.getD i 0 →
      CrawlStep arts s { s with subm := s.subm.set i (s.subm.getD i 0 + 1) }
  | completeArticle (s : CrawlState) : s.artDone < totalSubm s →
      CrawlStep arts s { s with artDone := s.artDone + 1 }
  | observeDrain (s : CrawlState) (i : Nat) : i < s.feedsSubmitted →
      s.exited.getD i true = false →
      s.waited.getD i false = false →
      arts.getD i 0 ≠ 0 →
      s.subm.getD i 0 = arts.getD i 0 →
      s.artDone = totalSubm s →
      CrawlStep arts s { s with waited := s.waited.set i true }
  | exitFeed (s : CrawlState) (i : Nat) : i < s.feedsSubmitted →
      s.exited.getD i true = false →
      s.subm.getD i 0 = arts.getD i 0 →
      (arts.getD i 0 ≠ 0 → s.waited.getD i false = true) →
      CrawlStep arts s { s with exited := s.exited.set i true }
  | flush (s : CrawlState) : s.feedsSubmitted = arts.length →
      (∀ i, i < arts.length → s.exited.getD i true = true) →
      s.flushed = false →
      CrawlStep arts s { s with flushed := true }

/-- Initial crawl state: no feed task submitted, no articles submitted or
done, no wait observed, no feed task returned, flush not started. -/
def crawlInit (arts : List Nat) : CrawlState :=
  { feedsSubmitted := 0, subm := List.replicate arts.length 0,
    exited := List.replicate arts.length false,
    waited := List.replicate arts.length false, artDone := 0, flushed := false }

/-- Reachability of crawl-run states. -/
def CrawlReach (arts : List Nat) : CrawlState → CrawlState → Prop :=
  Relation.ReflTransGen (CrawlStep arts)

/-- The state of the shared seen-URL set under racing tasks: the set
contents and, per task, its status (none = has not reached the locked
test-and-insert yet; some true = the insert succeeded, so the task goes on
to execute the fetch-and-parse body; some false = the URL was already
present, so the task returned early). -/
structure DedupSys where
  seen : List String
  status : List (Option Bool)
deriving DecidableEq

/-- The atomic locked test-and-insert performed by every feed task
(src/news-aggregator.cc:146-152) and every article task
(src/news-aggregator.cc:179-185) on the shared seenURLs set, with `urls`
fixing the URL each racing task tries to claim: a task either finds its URL
present and returns early, or inserts it and proceeds to the body. -/
inductive DedupStep (urls : List String) : DedupSys → DedupSys → Prop
  | claimHit (s : DedupSys) (i : Nat) : i < urls.length →
      s.status.getD i (some false) = none →
      urls.getD i "" ∈ s.seen →
      DedupStep urls s { s with status := s.status.set i (some false) }
  | claimMiss (s : DedupSys) (i : Nat) : i < urls.length →
      s.status.getD i (some false) = none →
      urls.getD i "" ∉ s.seen →
      DedupStep urls s { seen := urls.getD i "" :: s.seen,
                         status := s.status.set i (some true) }

/-- Initial dedup state: empty seen set, no task has run its claim yet. -/
def dedupInit (urls : List String) : DedupSys :=
  { seen := [], status := List.replicate urls.length none }

/-- Reachability of dedup states. -/
def DedupReach (urls : List String) : DedupSys → DedupSys → Prop :=
  Relation.ReflTransGen (DedupStep urls)

/-! ## Lemmas about the sorted intersection and the merge fold -/

/-- The sorted intersection only keeps elements of its left input, in
order. -/
theorem intersectSorted_sublist (s t : List String) :
    List.Sublist (intersectSorted s t) s := by
  induction s, t using intersectSorted.induct with
  | case1 t => simp [intersectSorted]
  | case2 a as => simp [intersectSorted]
  | case3 a as b bs h ih =>
      rw [intersectSorted, if_pos h]
      exact ih.cons a
  | case4 a as b bs h h2 ih =>
      rw [intersectSorted, if_neg h, if_pos h2]
      exact ih
  | case5 a as b bs h h2 ih =>
      rw [intersectSorted, if_neg h, if_neg h2]
      exact ih.cons₂ a

/-- An element strictly below the head of an ascending list is not in the
list. -/
theorem not_mem_of_lt_sorted (a b : String) (bs : List String)
    (hs : (b :: bs).Sorted (· ≤ ·)) (hab : a < b) : a ∉ b :: bs := by
  intro hm
  rcases List.mem_cons.mp hm with h | h
  · exact absurd (h ▸ hab) (lt_irrefl _)
  · exact absurd hab (not_lt.mpr (List.rel_of_sorted_cons hs a h))

/-- On ascending inputs, the sorted intersection computes exactly the
multiset intersection (minimum multiplicities). -/
theorem coe_intersectSorted (s t : List String)
    (hs : s.Sorted (· ≤ ·)) (ht : t.Sorted (· ≤ ·)) :
    ((intersectSorted s t : List String) : Multiset String) =
      (s : Multiset String) ∩ (t : Multiset String) := by
  induction s, t using intersectSorted.induct with
  | case1 t => simp [intersectSorted]
  | case2 a as => simp [intersectSorted]
  | case3 a as b bs h ih =>
      have hmem : (a : String) ∉ ((b :: bs : List String) : Multiset String) := by
        rw [Multiset.mem_coe]
        exact not_mem_of_lt_sorted a b bs ht h
      calc ((intersectSorted (a :: as) (b :: bs) : List String) : Multiset String)
          = ((intersectSorted as (b :: bs) : List String) : Multiset String) := by
            rw [intersectSorted, if_pos h]
        _ = ((as : List String) : Multiset String) ∩ ((b :: bs : List String) : Multiset String) :=
            ih hs.of_cons ht
        _ = (a ::ₘ ((as : List String) : Multiset String)) ∩ ((b :: bs : List String) : Multiset String) :=
            (Multiset.cons_inter_of_neg _ hmem).symm
        _ = ((a :: as : List String) : Multiset String) ∩ ((b :: bs : List String) : Multiset String) := by
            rw [Multiset.cons_coe]
  | case4 a as b bs h h2 ih =>
      have hmem : (b : String) ∉ ((a :: as : List String) : Multiset String) := by
        rw [Multiset.mem_coe]
        exact not_mem_of_lt_sorted b a as hs h2
      calc ((intersectSorted (a :: as) (b :: bs) : List String) : Multiset String)
          = ((intersectSorted (a :: as) bs : List String) : Multiset String) := by
            rw [intersectSorted, if_neg h, if_pos h2]
        _ = ((a :: as : List String) : Multiset String) ∩ ((bs : List String) : Multiset String) :=
            ih hs ht.of_cons
        _ = ((bs : List String) : Multiset String) ∩ ((a :: as : List String) : Multiset String) :=
            Multiset.inter_comm _ _
        _ = (b ::ₘ ((bs : List String) : Multiset String)) ∩ ((a :: as : List String) : Multiset String) :=
            (Multiset.cons_inter_of_neg _ hmem).symm
        _ = ((b :: bs : List String) : Multiset String) ∩ ((a :: as : List String) : Multiset String) := by
            rw [Multiset.cons_coe]
        _ = ((a :: as : List String) : Multiset String) ∩ ((b :: bs : List String) : Multiset String) :=
            Multiset.inter_comm _ _
  | case5 a as b bs h h2 ih =>
      have hab : a = b := le_antisymm (not_lt.mp h2) (not_lt.mp h)
      subst hab
      calc ((intersectSorted (a :: as) (a :: bs) : List String) : Multiset String)
          = ((a :: intersectSorted as bs : List String) : Multiset String) := by
            rw [intersectSorted, if_neg h, if_neg h2]
        _ = a ::ₘ ((intersectSorted as bs : List String) : Multiset String) :=
            (Multiset.cons_coe _ _).symm
        _ = a ::ₘ (((as : List String) : Multiset String) ∩ ((bs : List String) : Multiset String)) := by
            rw [ih hs.of_cons ht.of_cons]
        _ = a ::ₘ (((as : List String) : Multiset String) ∩
              (a ::ₘ ((bs : List String) : Multiset String)).erase a) := by
            rw [Multiset.erase_cons_head]
        _ = (a ::ₘ ((as : List String) : Multiset String)) ∩
              (a ::ₘ ((bs : List String) : Multiset String)) :=
            (Multiset.cons_inter_of_pos _ (Multiset.mem_cons_self a _)).symm
        _ = ((a :: as : List String) : Multiset String) ∩ ((a :: bs : List String) : Multiset String) := by
            rw [Multiset.cons_coe, Multiset.cons_coe]

/-- infWT of the empty list is the top element. -/
theorem infWT_nil {α : Type} [SemilatticeInf α] : infWT ([] : List α) = ⊤ := by
  simp [infWT]

/-- infWT peels off the head as one meet operand. -/
theorem infWT_cons {α : Type} [SemilatticeInf α] (a : α) (l : List α) :
    infWT (a :: l) = (a : WithTop α) ⊓ infWT l := by
  simp [infWT]

/-- infWT is invariant under permutation. -/
theorem infWT_perm {α : Type} [SemilatticeInf α] (l1 l2 : List α)
    (h : List.Perm l1 l2) : infWT l1 = infWT l2 := by
  unfold infWT
  rw [Multiset.coe_eq_coe.mpr (h.map _)]

/-- A left fold of the meet over a list, started at x, is the infWT of the
list met with x. -/
theorem coe_foldl_inf {α : Type} [SemilatticeInf α] (l : List α) (x : α) :
    ((l.foldl (fun p q => p ⊓ q) x : α) : WithTop α) = infWT l ⊓ (x : WithTop α) := by
  induction l generalizing x with
  | nil => simp [infWT_nil]
  | cons a as ih =>
      simp only [List.foldl_cons]
      rw [ih (x ⊓ a), WithTop.coe_inf, infWT_cons,
        inf_comm (x : WithTop α) (a : WithTop α), ← inf_assoc,
        inf_comm (infWT as) (a : WithTop α)]

/-- The conditional picking the lexicographically smaller string
(src/news-aggregator.cc:206) is the lattice meet on strings. -/
theorem strMin_inf (u v : String) : (if u < v then u else v) = u ⊓ v := by
  rcases lt_trichotomy u v with h | h | h
  · rw [if_pos h, inf_eq_min, min_eq_left h.le]
  · subst h
    rw [if_neg (lt_irrefl u), inf_eq_min, min_self]
  · rw [if_neg (not_lt.mpr h.le), inf_eq_min, min_eq_right h.le]

/-- Characterisation of the merge fold from an existing entry: the stored
token list stays sorted and accumulates multiset intersections; the stored
url accumulates string meets; the stored title is the common title when all
inputs share one. -/
theorem mergeFold_char (l : List (Article × List String)) :
    ∀ (a0 : Article) (t0 : List String), t0.Sorted (· ≤ ·) →
    ∃ a t, mergeFold l (some (a0, t0)) = some (a, t) ∧
      t.Sorted (· ≤ ·) ∧
      (t : Multiset String) =
        (l.map (fun p => ((p.2 : List String) : Multiset String))).foldl
          (fun p q => p ⊓ q) ((t0 : List String) : Multiset String) ∧
      a.url = (l.map (fun p => p.1.url)).foldl (fun p q => p ⊓ q) a0.url ∧
      (∀ τ, a0.title = τ → (∀ p, p ∈ l → p.1.title = τ) → a.title = τ) := by
  induction l with
  | nil =>
      intro a0 t0 h0
      exact ⟨a0, t0, rfl, h0, rfl, rfl, fun τ h _ => h⟩
  | cons p rest ih =>
      intro a0 t0 h0
      have hsortp : (List.insertionSort (· ≤ ·) p.2).Sorted (· ≤ ·) :=
        List.sorted_insertionSort _ _
      have hstep : mergeFold (p :: rest) (some (a0, t0)) =
          mergeFold rest
            (some ({ p.1 with url := if a0.url < p.1.url then a0.url else p.1.url },
              intersectSorted t0 (List.insertionSort (· ≤ ·) p.2))) := rfl
      obtain ⟨a, t, heq, hts, hmt, hurl, htit⟩ :=
        ih { p.1 with url := if a0.url < p.1.url then a0.url else p.1.url }
          (intersectSorted t0 (List.insertionSort (· ≤ ·) p.2))
          (h0.sublist (intersectSorted_sublist _ _))
      refine ⟨a, t, by rw [hstep]; exact heq, hts, ?_, ?_, ?_⟩
      · rw [hmt, coe_intersectSorted _ _ h0 hsortp,
          Multiset.coe_eq_coe.mpr (List.perm_insertionSort _ p.2)]
        simp only [List.map_cons, List.foldl_cons]
        rfl
      · rw [hurl]
        simp only [List.map_cons, List.foldl_cons]
        rw [strMin_inf]
      · intro τ h1 h2
        exact htit τ (h2 p (List.mem_cons_self p rest))
          (fun q hq => h2 q (List.mem_cons_of_mem _ hq))

/-- C1: for a merge key reached by k duplicate article tasks carrying token
lists T1..Tk and URLs U1..Uk, after all k locked updates have run - in any
permutation lp of the task list l - the stored entry exists, its token list
is ascending with multiset equal to the intersection of all k token
multisets, and its representative URL equals the minimum of all k URLs;
both right-hand sides are computed from l alone, so the result is
independent of the completion order. -/
theorem c1_merge_order_independent (l lp : List (Article × List String)) (τ : String)
    (hne : l ≠ []) (hperm : List.Perm lp l)
    (htitle : ∀ p, p ∈ l → p.1.title = τ) :
    ∃ a t, runMerge lp = some (a, t) ∧ a.title = τ ∧ t.Sorted (· ≤ ·) ∧
      (((t : List String) : Multiset String) : WithTop (Multiset String)) =
        infWT (l.map (fun p => ((p.2 : List String) : Multiset String))) ∧
      ((a.url : String) : WithTop String) = infWT (l.map (fun p => p.1.url)) := by
  cases lp with
  | nil =>
      exact absurd (List.length_eq_zero.mp (by simpa using hperm.length_eq.symm)) hne
  | cons p rest =>
      have hsortp : (List.insertionSort (· ≤ ·) p.2).Sorted (· ≤ ·) :=
        List.sorted_insertionSort _ _
      have h0 : runMerge (p :: rest) =
          mergeFold rest (some (p.1, List.insertionSort (· ≤ ·) p.2)) := rfl
      obtain ⟨a, t, heq, hts, hmt, hurl, htit⟩ := mergeFold_char rest p.1 _ hsortp
      refine ⟨a, t, by rw [h0]; exact heq, ?_, hts, ?_, ?_⟩
      · exact htit τ (htitle p (hperm.subset (List.mem_cons_self p rest)))
          (fun q hq => htitle q (hperm.subset (List.mem_cons_of_mem _ hq)))
      · rw [hmt, coe_foldl_inf,
          Multiset.coe_eq_coe.mpr (List.perm_insertionSort _ p.2), inf_comm,
          ← infWT_cons]
        have : List.Perm
            ((p :: rest).map (fun p => ((p.2 : List String) : Multiset String)))
            (l.map (fun p => ((p.2 : List String) : Multiset String))) :=
          hperm.map _
        simp only [List.map_cons] at this
        exact infWT_perm _ _ this
      · rw [hurl, coe_foldl_inf, inf_comm, ← infWT_cons]
        have : List.Perm ((p :: rest).map (fun p => p.1.url))
            (l.map (fun p => p.1.url)) := hperm.map _
        simp only [List.map_cons] at this
        exact infWT_perm _ _ this

/-- Witness for C1: two duplicate articles with the same title, processed
in swapped order, end with the lexicographically smaller URL and the
intersection of both token lists. -/
theorem c1_merge_order_independent_witness :
    ∃ a t, runMerge [(⟨"x", "au"⟩, ["p"]), (⟨"x", "bu"⟩, ["q", "p"])] = some (a, t) ∧
      a.title = "x" ∧ t.Sorted (· ≤ ·) ∧
      (((t : List String) : Multiset String) : WithTop (Multiset String)) =
        infWT (([(⟨"x", "bu"⟩, ["q", "p"]), (⟨"x", "au"⟩, ["p"])] :
            List (Article × List String)).map
          (fun p => ((p.2 : List String) : Multiset String))) ∧
      ((a.url : String) : WithTop String) =
        infWT (([(⟨"x", "bu"⟩, ["q", "p"]), (⟨"x", "au"⟩, ["p"])] :
            List (Article × List String)).map (fun p => p.1.url)) :=
  c1_merge_order_independent
    [(⟨"x", "bu"⟩, ["q", "p"]), (⟨"x", "au"⟩, ["p"])]
    [(⟨"x", "au"⟩, ["p"]), (⟨"x", "bu"⟩, ["q", "p"])] "x"
    (by simp) (List.Perm.swap _ _ _)
    (by
      intro p hp
      rcases List.mem_cons.mp hp with h | h
      · rw [h]
      · rcases List.mem_cons.mp h with h2 | h2
        · rw [h2]
        · cases h2)

/-- Looking a key up after storing a value under a (possibly different)
key. -/
theorem lookupEntry_insertEntry (k k2 : String × String) (v : Article × List String)
    (m : List ((String × String) × (Article × List String))) :
    lookupEntry k2 (insertEntry k v m) =
      if k2 = k then some v else lookupEntry k2 m := by
  induction m with
  | nil => simp [insertEntry, lookupEntry]
  | cons kv rest ih =>
      by_cases h : k = kv.1
      · by_cases h2 : k2 = kv.1
        · have h3 : k2 = k := h2.trans h.symm
          simp [insertEntry, lookupEntry, h, h2, h3]
        · have h3 : ¬ k2 = k := fun hh => h2 (hh.trans h)
          simp [insertEntry, lookupEntry, h, h2, h3]
      · by_cases h2 : k2 = kv.1
        · have h3 : ¬ k2 = k := fun hh => h (hh.symm.trans h2)
          have h4 : ¬ kv.1 = k := fun hh => h hh.symm
          simp [insertEntry, lookupEntry, h, h2, h3, h4]
        · simp [insertEntry, lookupEntry, h, h2, ih]

/-- C9: the intermediate-index invariant - every stored entry's article
title equals the key's title component, the server of the stored article's
URL equals the key's server component, and the stored token list is
ascending - is preserved by the full article-task update, through both its
insert branch and its merge branch. -/
theorem c9_merge_invariant (server : String → String)
    (m : List ((String × String) × (Article × List String)))
    (a : Article) (raw : List String) (h : MergeInv server m) :
    MergeInv server (articleMerge server m a raw) := by
  intro k e hk
  simp only [articleMerge] at hk
  rw [lookupEntry_insertEntry] at hk
  by_cases hkey : k = mergeKey server a
  · rw [if_pos hkey] at hk
    subst hkey
    have he : e = updateEntry a (List.insertionSort (· ≤ ·) raw)
        (lookupEntry (mergeKey server a) m) := (Option.some.inj hk).symm
    cases hlook : lookupEntry (mergeKey server a) m with
    | none =>
        rw [hlook] at he
        subst he
        exact ⟨rfl, rfl, List.sorted_insertionSort _ _⟩
    | some old =>
        obtain ⟨oldA, oldT⟩ := old
        rw [hlook] at he
        obtain ⟨ht, hu, hs⟩ := h (mergeKey server a) (oldA, oldT) hlook
        subst he
        refine ⟨rfl, ?_, hs.sublist (intersectSorted_sublist _ _)⟩
        by_cases hlt : oldA.url < a.url
        · show server (if oldA.url < a.url then oldA.url else a.url) = (mergeKey server a).2
          rw [if_pos hlt]
          exact hu
        · show server (if oldA.url < a.url then oldA.url else a.url) = (mergeKey server a).2
          rw [if_neg hlt]
          rfl
  · rw [if_neg hkey] at hk
    exact h k e hk

/-- Witness for C9: the invariant holds for the map produced by one article
task acting on the empty intermediate index. -/
theorem c9_merge_invariant_witness :
    MergeInv (fun _ => "s")
      (articleMerge (fun _ => "s") [] ⟨"t", "u"⟩ ["b", "a"]) :=
  c9_merge_invariant (fun _ => "s") [] ⟨"t", "u"⟩ ["b", "a"]
    (by
      intro k e hk
      simp [lookupEntry] at hk)

/-! ## Lemmas about the sequential crawl model -/

/-- An article task never touches the built flag. -/
theorem articleTask_built (env : Env) (st : AggState) (a : Article) :
    (articleTask env st a).built = st.built := by
  by_cases h : a.url ∈ st.seenURLs
  · simp [articleTask, h]
  · cases hd : env.docTokens a.url <;> simp [articleTask, h, hd]

/-- Running any list of article tasks never touches the built flag. -/
theorem foldl_articleTask_built (env : Env) (l : List Article) :
    ∀ st : AggState, (l.foldl (articleTask env) st).built = st.built := by
  induction l with
  | nil => intro st; rfl
  | cons a rest ih =>
      intro st
      rw [List.foldl_cons, ih (articleTask env st a), articleTask_built]

/-- A feed task never touches the built flag. -/
theorem feedTask_built (env : Env) (st : AggState) (f : String × String) :
    (feedTask env st f).built = st.built := by
  by_cases h : f.1 ∈ st.seenURLs
  · simp [feedTask, h]
  · cases hd : env.feedArticles f.1 with
    | error e => simp [feedTask, h, hd]
    | ok articles =>
        by_cases he : articles.isEmpty
        · simp [feedTask, h, hd, he]
        · simp [feedTask, h, hd, he, foldl_articleTask_built]

/-- Running any list of feed tasks never touches the built flag. -/
theorem foldl_feedTask_built (env : Env) (l : List (String × String)) :
    ∀ st : AggState, (l.foldl (feedTask env) st).built = st.built := by
  induction l with
  | nil => intro st; rfl
  | cons f rest ih =>
      intro st
      rw [List.foldl_cons, ih (feedTask env st f), feedTask_built]

/-- processAllFeeds never touches the built flag. -/
theorem processAllFeeds_built (env : Env) (st : AggState) :
    (processAllFeeds env st).built = st.built := by
  cases hf : env.feedList with
  | error e => simp [processAllFeeds, hf]
  | ok feeds =>
      by_cases he : feeds.isEmpty
      · simp [processAllFeeds, hf, he]
      · simp [processAllFeeds, hf, he, foldl_feedTask_built]

/-- After any buildIndex call the built flag is set. -/
theorem buildIndex_built (env : Env) (st : AggState) :
    (buildIndex env st).built = true := by
  by_cases h : st.built
  · simp [buildIndex, h]
  · simp [buildIndex, h, processAllFeeds_built]

/-- buildIndex on an already-built aggregator is the identity. -/
theorem buildIndex_of_built (env : Env) (st : AggState) (h : st.built = true) :
    buildIndex env st = st := by
  simp [buildIndex, h]

/-- A run whose feed list fails to parse, or parses to an empty mapping,
changes nothing. -/
theorem processAllFeeds_fail (env : Env) (st : AggState)
    (h : env.feedList = Except.error () ∨ env.feedList = Except.ok []) :
    processAllFeeds env st = st := by
  rcases h with h | h
  · simp [processAllFeeds, h]
  · simp [processAllFeeds, h]

/-- C6: if parsing the top-level feed list fails (the exception is caught
inside processAllFeeds, so nothing propagates to the caller) or the parsed
mapping is empty, the run returns with the aggregator state unchanged - in
particular no feed task and no article task is submitted and nothing is
flushed into the index. -/
theorem c6_failed_feed_list_empty_run (env : Env) (st : AggState)
    (h : env.feedList = Except.error () ∨ env.feedList = Except.ok []) :
    processAllFeeds env st = st :=
  processAllFeeds_fail env st h

/-- Witness for C6: a concrete environment whose feed list fails to parse
leaves a fresh aggregator untouched. -/
theorem c6_failed_feed_list_empty_run_witness :
    processAllFeeds
      ⟨Except.error (), fun _ => Except.error (), fun _ => Except.error (), fun _ => ""⟩
      initAgg = initAgg :=
  c6_failed_feed_list_empty_run
    ⟨Except.error (), fun _ => Except.error (), fun _ => Except.error (), fun _ => ""⟩
    initAgg (Or.inl rfl)

/-- C8: calling buildIndex a second time on the same aggregator is a no-op:
the first call leaves the built flag set, so the second call returns
immediately without re-crawling or re-flushing, leaving the index
unchanged. -/
theorem c8_buildIndex_idempotent (env : Env) (st : AggState) :
    buildIndex env (buildIndex env st) = buildIndex env st :=
  buildIndex_of_built env (buildIndex env st) (buildIndex_built env st)

/-- C10: the built flag is set before any processing, so even when the
first run aborts on a failing or empty feed list, the first call changes
nothing but the built flag, and any later buildIndex call - even against a
different environment - is a no-op that leaves index, seenURLs and
intermediateIndex unchanged: a failed run is never retried. -/
theorem c10_failed_run_not_retried (env env2 : Env) (st : AggState)
    (h : env.feedList = Except.error () ∨ env.feedList = Except.ok []) :
    (buildIndex env st).built = true ∧
    (buildIndex env st).seenURLs = st.seenURLs ∧
    (buildIndex env st).indexAdds = st.indexAdds ∧
    (buildIndex env st).intermediateIndex = st.intermediateIndex ∧
    buildIndex env2 (buildIndex env st) = buildIndex env st := by
  by_cases hb : st.built
  · rw [buildIndex_of_built env st hb]
    exact ⟨hb, rfl, rfl, rfl, buildIndex_of_built env2 st hb⟩
  · have hbi : buildIndex env st = { st with built := true } := by
      rw [buildIndex, if_neg hb]
      exact processAllFeeds_fail env { st with built := true } h
    rw [hbi]
    exact ⟨rfl, rfl, rfl, rfl, buildIndex_of_built env2 { st with built := true } rfl⟩

/-- Witness for C10: with a failing feed list the first call only sets the
built flag, and a repeat call against a different environment changes
nothing. -/
theorem c10_failed_run_not_retried_witness :
    (buildIndex ⟨Except.error (), fun _ => Except.error (), fun _ => Except.error (),
        fun _ => ""⟩ initAgg).built = true ∧
    (buildIndex ⟨Except.error (), fun _ => Except.error (), fun _ => Except.error (),
        fun _ => ""⟩ initAgg).seenURLs = initAgg.seenURLs ∧
    (buildIndex ⟨Except.error (), fun _ => Except.error (), fun _ => Except.error (),
        fun _ => ""⟩ initAgg).indexAdds = initAgg.indexAdds ∧
    (buildIndex ⟨Except.error (), fun _ => Except.error (), fun _ => Except.error (),
        fun _ => ""⟩ initAgg).intermediateIndex = initAgg.intermediateIndex ∧
    buildIndex ⟨Except.ok [("f", "t")], fun _ => Except.ok [], fun _ => Except.ok [],
        fun _ => ""⟩
      (buildIndex ⟨Except.error (), fun _ => Except.error (), fun _ => Except.error (),
        fun _ => ""⟩ initAgg) =
      buildIndex ⟨Except.error (), fun _ => Except.error (), fun _ => Except.error (),
        fun _ => ""⟩ initAgg :=
  c10_failed_run_not_retried
    ⟨Except.error (), fun _ => Except.error (), fun _ => Except.error (), fun _ => ""⟩
    ⟨Except.ok [("f", "t")], fun _ => Except.ok [], fun _ => Except.ok [], fun _ => ""⟩
    initAgg (Or.inl rfl)

/-! ## Lemmas about the dispatcher's bounded worker spawning -/

/-- The dispatcher's selection loop preserves the worker-vector length and
the spawned-flag length, and keeps nextSpawnID within the worker-vector
length, provided every candidate index is in range. -/
theorem scanLoop_spec (cands : List Nat) :
    ∀ (inUse spawned : List Bool) (next : Nat),
    next ≤ inUse.length → (∀ i, i ∈ cands → i < inUse.length) →
    (scanLoop inUse spawned next cands).1.length = inUse.length ∧
    (scanLoop inUse spawned next cands).2.1.length = spawned.length ∧
    (scanLoop inUse spawned next cands).2.2.1 ≤ inUse.length := by
  induction cands with
  | nil =>
      intro inUse spawned next hnext _
      exact ⟨rfl, rfl, hnext⟩
  | cons i rest ih =>
      intro inUse spawned next hnext hc
      have hi : i < inUse.length := hc i (List.mem_cons_self i rest)
      have hrest : ∀ j, j ∈ rest → j < inUse.length :=
        fun j hj => hc j (List.mem_cons_of_mem i hj)
      by_cases heq : i = next
      · subst heq
        by_cases hin : inUse.getD i true = true
        · have h3 := ih inUse (spawned.set i true) (i + 1) hi hrest
          simp only [scanLoop, if_pos rfl, hin, if_true]
          exact ⟨h3.1, (h3.2.1).trans (List.length_set spawned i true), h3.2.2⟩
        · simp only [scanLoop, if_pos rfl, hin, if_false]
          exact ⟨List.length_set inUse i true, List.length_set spawned i true, hi⟩
      · by_cases hin : inUse.getD i true = true
        · have h3 := ih inUse spawned next hnext hrest
          simp only [scanLoop, if_neg heq, hin, if_true]
          exact h3
        · simp only [scanLoop, if_neg heq, hin, if_false]
          exact ⟨List.length_set inUse i true, rfl, hnext⟩

/-- One pool event preserves the worker-vector and spawned-flag lengths and
keeps nextSpawnID within the worker-vector length. -/
theorem applyEvent_inv (st : PoolWorkers) (e : PoolEvent)
    (h2 : st.nextSpawnID ≤ st.inUse.length) :
    (applyEvent st e).inUse.length = st.inUse.length ∧
    (applyEvent st e).spawned.length = st.spawned.length ∧
    (applyEvent st e).nextSpawnID ≤ st.inUse.length := by
  cases e with
  | dispatch =>
      have h3 := scanLoop_spec (List.range st.inUse.length) st.inUse st.spawned
        st.nextSpawnID h2 (fun i hi => List.mem_range.mp hi)
      exact h3
  | free j =>
      exact ⟨List.length_set _ _ _, rfl, h2⟩

/-- Iterating pool events preserves the invariant. -/
theorem foldl_applyEvent_inv (evts : List PoolEvent) :
    ∀ st : PoolWorkers, st.nextSpawnID ≤ st.inUse.length →
    (evts.foldl applyEvent st).inUse.length = st.inUse.length ∧
    (evts.foldl applyEvent st).spawned.length = st.spawned.length ∧
    (evts.foldl applyEvent st).nextSpawnID ≤ st.inUse.length := by
  induction evts with
  | nil => intro st h; exact ⟨rfl, rfl, h⟩
  | cons e rest ih =>
      intro st h
      obtain ⟨h1, h2, h3⟩ := applyEvent_inv st e h
      obtain ⟨g1, g2, g3⟩ := ih (applyEvent st e) (h3.trans_eq h1.symm)
      exact ⟨g1.trans h1, g2.trans h2, g3.trans_eq h1⟩

/-- C5: for a pool constructed with maxWorkers = M, any interleaving of
dispatcher iterations and worker-free events keeps nextSpawnID at or below
M, records spawned workers only at indices below M, and spawns at most M
workers in total. -/
theorem c5_bounded_spawn (M : Nat) (evts : List PoolEvent) :
    (runPool M evts).nextSpawnID ≤ M ∧
    (∀ j, (runPool M evts).spawned.getD j false = true → j < M) ∧
    (runPool M evts).spawned.count true ≤ M := by
  obtain ⟨h1, h2, h3⟩ := foldl_applyEvent_inv evts (initPool M) (by simp [initPool])
  have hiu : (initPool M).inUse.length = M := by simp [initPool]
  have hsp : (initPool M).spawned.length = M := by simp [initPool]
  have hlen : (runPool M evts).spawned.length = M := by
    show (evts.foldl applyEvent (initPool M)).spawned.length = M
    rw [h2, hsp]
  refine ⟨?_, ?_, ?_⟩
  · show (evts.foldl applyEvent (initPool M)).nextSpawnID ≤ M
    exact h3.trans_eq hiu
  · intro j hj
    by_contra hlt
    have hge : (runPool M evts).spawned.length ≤ j := by
      rw [hlen]
      exact Nat.le_of_not_lt hlt
    rw [List.getD_eq_default _ _ hge] at hj
    cases hj
  · have hc := List.count_le_length true (runPool M evts).spawned
    rw [hlen] at hc
    exact hc

/-! ## The schedule/wait window and the worker fault path -/

/-- C3 counterexample: starting from an idle pool, the scheduler can push a
thunk onto the queue, and before it increments the pending counter a
concurrent wait can observe a zero counter and return - so a reachable
state has wait returned while the queue holds a task the counter has not
recorded, refuting the claimed atomicity of enqueue and increment. -/
theorem c3_schedule_window_counterexample :
    ¬ (∀ s : SubmitWaitState, SWReach swInit s → s.waitReturned = true →
        s.queueLen = s.pending) := by
  intro h
  have s1 : SubmitWaitStep swInit ⟨1, 0, 1, false⟩ := SubmitWaitStep.push swInit rfl
  have s2 : SubmitWaitStep ⟨1, 0, 1, false⟩ ⟨1, 0, 1, true⟩ :=
    SubmitWaitStep.waitCheck ⟨1, 0, 1, false⟩ rfl
  have hreach : SWReach swInit ⟨1, 0, 1, true⟩ :=
    Relation.ReflTransGen.tail
      (Relation.ReflTransGen.tail Relation.ReflTransGen.refl s1) s2
  exact Nat.one_ne_zero (h ⟨1, 0, 1, true⟩ hreach rfl)

/-- C3 amended: schedule pushes under the queue lock and only afterwards
increments the counter under a separate lock, so exactly while the
scheduler sits between the two critical sections the queue holds one more
task than the counter records; wait itself can only return upon observing a
zero counter (built into the waitCheck step). -/
theorem c3_schedule_window_characterised (s : SubmitWaitState)
    (h : SWReach swInit s) :
    s.queueLen = s.pending + (if s.submitPC = 1 then 1 else 0) := by
  induction h with
  | refl => rfl
  | @tail b c h1 h2 ih =>
      cases h2 with
      | push hpc =>
          show b.queueLen + 1 = b.pending + (if (1 : Nat) = 1 then 1 else 0)
          rw [if_pos rfl]
          rw [hpc, if_neg (by decide : ¬ (0 : Nat) = 1)] at ih
          omega
      | count hpc =>
          show b.queueLen = (b.pending + 1) + (if (2 : Nat) = 1 then 1 else 0)
          rw [if_neg (by decide : ¬ (2 : Nat) = 1)]
          rw [hpc, if_pos rfl] at ih
          omega
      | waitCheck hp =>
          show b.queueLen = b.pending + (if b.submitPC = 1 then 1 else 0)
          exact ih

/-- Witness for the amended C3 theorem at the initial state. -/
theorem c3_schedule_window_characterised_witness :
    swInit.queueLen = swInit.pending + (if swInit.submitPC = 1 then 1 else 0) :=
  c3_schedule_window_characterised swInit Relation.ReflTransGen.refl

/-- C7 counterexample: a worker running a thunk that raises produces no
updated bookkeeping state at all - the fault escapes the worker body before
the counter decrement, the free marking and the availability signal - so on
the concrete state (pending = 1, worker busy, no signals) the result is the
propagated fault, and in particular it is not the state the claim promises
(counter decremented to 0, worker freed, one signal issued). -/
theorem c7_fault_skips_bookkeeping_counterexample :
    workerRunThunk ⟨1, true, 0⟩ (Except.error "fault") = Except.error "fault" ∧
    workerRunThunk ⟨1, true, 0⟩ (Except.error "fault") ≠ Except.ok ⟨0, false, 1⟩ :=
  ⟨rfl, fun h => Except.noConfusion h⟩

/-- C7 amended: the worker's bookkeeping - decrementing the pending
counter, marking the worker free and issuing the availability signal - runs
exactly when the thunk returns normally; a thunk that raises propagates its
fault out of the worker body and skips all three updates. -/
theorem c7_worker_bookkeeping (st : PoolBook) :
    workerRunThunk st (Except.ok ()) =
      Except.ok ⟨st.pendingThunks - 1, false, st.availableSignals + 1⟩ ∧
    (∀ e, workerRunThunk st (Except.error e) = Except.error e) :=
  ⟨rfl, fun _ => rfl⟩

/-! ## List helper lemmas for the transition-system invariants -/

/-- getD after set at the written index. -/
theorem getD_set_self {α : Type} :
    ∀ (l : List α) (i : Nat) (a d : α), i < l.length → (l.set i a).getD i d = a := by
  intro l
  induction l with
  | nil => intro i a d h; exact absurd h (Nat.not_lt_zero i)
  | cons x xs ih =>
      intro i a d h
      cases i with
      | zero => rfl
      | succ j => exact ih j a d (Nat.lt_of_succ_lt_succ h)

/-- getD after set at a different index. -/
theorem getD_set_ne {α : Type} :
    ∀ (l : List α) (i j : Nat) (a d : α), j ≠ i → (l.set i a).getD j d = l.getD j d := by
  intro l
  induction l with
  | nil => intro i j a d _; rfl
  | cons x xs ih =>
      intro i j a d hne
      cases i with
      | zero =>
          cases j with
          | zero => exact absurd rfl hne
          | succ k => rfl
      | succ i2 =>
          cases j with
          | zero => rfl
          | succ k => exact ih i2 k a d (fun hh => hne (by rw [hh]))

/-- getD of a replicated list at an in-range index. -/
theorem getD_replicate_lt {α : Type} (a d : α) :
    ∀ (n i : Nat), i < n → (List.replicate n a).getD i d = a := by
  intro n
  induction n with
  | zero => intro i h; exact absurd h (Nat.not_lt_zero i)
  | succ n ih =>
      intro i h
      cases i with
      | zero => rfl
      | succ j => exact ih j (Nat.lt_of_succ_lt_succ h)

/-- Bumping one in-range entry bumps the sum by one. -/
theorem sum_set_getD :
    ∀ (l : List Nat) (i : Nat), i < l.length →
      (l.set i (l.getD i 0 + 1)).sum = l.sum + 1 := by
  intro l
  induction l with
  | nil => intro i h; exact absurd h (Nat.not_lt_zero i)
  | cons x xs ih =>
      intro i h
      cases i with
      | zero =>
          simp [List.set, List.getD_cons_zero, List.sum_cons]
          omega
      | succ j =>
          have hs := ih j (Nat.lt_of_succ_lt_succ h)
          simp [List.getD] at hs
          simp [List.set, List.getD_cons_succ, List.sum_cons]
          omega

/-! ## The shared seen-URL set claims each URL at most once -/

/-- Invariant of the racing test-and-insert: the status vector keeps its
length, a task that claimed successfully has its URL in the seen set, and
no two distinct tasks both claim successfully with the same URL. -/
theorem dedupReach_invariant (urls : List String) (s : DedupSys)
    (h : DedupReach urls (dedupInit urls) s) :
    s.status.length = urls.length ∧
    (∀ i, i < urls.length → s.status.getD i none = some true →
      urls.getD i "" ∈ s.seen) ∧
    (∀ i j, i < urls.length → j < urls.length → i ≠ j →
      s.status.getD i none = some true → s.status.getD j none = some true →
      urls.getD i "" ≠ urls.getD j "") := by
  induction h with
  | refl =>
      refine ⟨by simp [dedupInit], ?_, ?_⟩
      · intro i hi hti
        rw [show (dedupInit urls).status = List.replicate urls.length none from rfl,
          getD_replicate_lt none none urls.length i hi] at hti
        cases hti
      · intro i j hi hj hne hti htj
        rw [show (dedupInit urls).status = List.replicate urls.length none from rfl,
          getD_replicate_lt none none urls.length i hi] at hti
        cases hti
  | @tail sb sc h1 h2 ih =>
      obtain ⟨L, M, D⟩ := ih
      cases h2 with
      | claimHit i hiu hst hmem =>
          refine ⟨?_, ?_, ?_⟩
          · show (sb.status.set i (some false)).length = urls.length
            rw [List.length_set]
            exact L
          · intro j hj htj
            have htj2 : (sb.status.set i (some false)).getD j none = some true := htj
            by_cases hji : j = i
            · subst hji
              rw [getD_set_self sb.status j (some false) none (by rw [L]; exact hj)] at htj2
              simp at htj2
            · rw [getD_set_ne sb.status i j (some false) none hji] at htj2
              exact M j hj htj2
          · intro a2 b2 ha hb hne hta htb
            have hta2 : (sb.status.set i (some false)).getD a2 none = some true := hta
            have htb2 : (sb.status.set i (some false)).getD b2 none = some true := htb
            by_cases hai : a2 = i
            · subst hai
              rw [getD_set_self sb.status a2 (some false) none (by rw [L]; exact ha)] at hta2
              simp at hta2
            · by_cases hbi : b2 = i
              · subst hbi
                rw [getD_set_self sb.status b2 (some false) none (by rw [L]; exact hb)] at htb2
                simp at htb2
              · rw [getD_set_ne sb.status i a2 (some false) none hai] at hta2
                rw [getD_set_ne sb.status i b2 (some false) none hbi] at htb2
                exact D a2 b2 ha hb hne hta2 htb2
      | claimMiss i hiu hst hmem =>
          refine ⟨?_, ?_, ?_⟩
          · show (sb.status.set i (some true)).length = urls.length
            rw [List.length_set]
            exact L
          · intro j hj htj
            have htj2 : (sb.status.set i (some true)).getD j none = some true := htj
            show urls.getD j "" ∈ urls.getD i "" :: sb.seen
            by_cases hji : j = i
            · subst hji
              exact List.mem_cons_self _ _
            · rw [getD_set_ne sb.status i j (some true) none hji] at htj2
              exact List.mem_cons_of_mem _ (M j hj htj2)
          · intro a2 b2 ha hb hne hta htb
            have hta2 : (sb.status.set i (some true)).getD a2 none = some true := hta
            have htb2 : (sb.status.set i (some true)).getD b2 none = some true := htb
            by_cases hai : a2 = i
            · subst hai
              by_cases hbi : b2 = a2
              · exact absurd hbi.symm hne
              · rw [getD_set_ne sb.status a2 b2 (some true) none hbi] at htb2
                have hmb : urls.getD b2 "" ∈ sb.seen := M b2 hb htb2
                intro heq
                apply hmem
                rw [heq]
                exact hmb
            · by_cases hbi : b2 = i
              · subst hbi
                rw [getD_set_ne sb.status b2 a2 (some true) none hai] at hta2
                have hma : urls.getD a2 "" ∈ sb.seen := M a2 ha hta2
                intro heq
                apply hmem
                rw [← heq]
                exact hma
              · rw [getD_set_ne sb.status i a2 (some true) none hai] at hta2
                rw [getD_set_ne sb.status i b2 (some true) none hbi] at htb2
                exact D a2 b2 ha hb hne hta2 htb2

/-- C4: across all feed and article tasks of one crawl run - which share
one seen-URL set - the locked test-and-insert succeeds at most once per
URL: in every reachable interleaving, no two distinct tasks that both
passed the insert (and hence both execute the fetch-and-parse body) carry
the same URL. -/
theorem c4_dedup_at_most_once (urls : List String) (s : DedupSys)
    (h : DedupReach urls (dedupInit urls) s) :
    ∀ i j, i < urls.length → j < urls.length → i ≠ j →
      s.status.getD i none = some true → s.status.getD j none = some true →
      urls.getD i "" ≠ urls.getD j "" :=
  (dedupReach_invariant urls s h).2.2

/-- Witness for C4: two tasks with distinct URLs can both claim; the
theorem then yields that their URLs indeed differ. -/
theorem c4_dedup_at_most_once_witness :
    (["a", "b"] : List String).getD 0 "" ≠ (["a", "b"] : List String).getD 1 "" := by
  have s1 : DedupStep ["a", "b"] (dedupInit ["a", "b"]) ⟨["a"], [some true, none]⟩ :=
    DedupStep.claimMiss (dedupInit ["a", "b"]) 0 (by decide) rfl (by decide)
  have s2 : DedupStep ["a", "b"] ⟨["a"], [some true, none]⟩
      ⟨["b", "a"], [some true, some true]⟩ :=
    DedupStep.claimMiss ⟨["a"], [some true, none]⟩ 1 (by decide) rfl (by decide)
  have hreach : DedupReach ["a", "b"] (dedupInit ["a", "b"])
      ⟨["b", "a"], [some true, some true]⟩ :=
    Relation.ReflTransGen.tail
      (Relation.ReflTransGen.tail Relation.ReflTransGen.refl s1) s2
  exact c4_dedup_at_most_once ["a", "b"] ⟨["b", "a"], [some true, some true]⟩
    hreach 0 1 (by decide) (by decide) (by decide) rfl rfl

/-! ## The flush loop starts only after all article tasks are done -/

/-- Invariant of the crawl-run transition system: the bookkeeping lists
keep their lengths, at most as many article tasks completed as were
submitted, a feed task whose wait returned - and a feed task that returned -
has submitted all its articles, a returned feed task with articles had its
wait return first, once every feed task with a nonzero article count has
passed its wait the article pool is fully drained, and the flush only
starts after every feed task has returned. -/
theorem crawlReach_invariant (arts : List Nat) (s : CrawlState)
    (h : CrawlReach arts (crawlInit arts) s) :
    s.subm.length = arts.length ∧
    s.exited.length = arts.length ∧
    s.waited.length = arts.length ∧
    s.artDone ≤ totalSubm s ∧
    (∀ i, i < arts.length → s.waited.getD i false = true →
      s.subm.getD i 0 = arts.getD i 0) ∧
    (∀ i, i < arts.length → s.exited.getD i true = true →
      s.subm.getD i 0 = arts.getD i 0 ∧
      (arts.getD i 0 ≠ 0 → s.waited.getD i false = true)) ∧
    ((∀ i, i < arts.length → arts.getD i 0 ≠ 0 → s.waited.getD i false = true) →
      s.artDone = totalSubm s) ∧
    (s.flushed = true → ∀ i, i < arts.length → s.exited.getD i true = true) := by
  induction h with
  | refl =>
      refine ⟨by simp [crawlInit], by simp [crawlInit], by simp [crawlInit],
        Nat.zero_le _, ?_, ?_, ?_, ?_⟩
      · intro i hi hw
        rw [show (crawlInit arts).waited = List.replicate arts.length false from rfl,
          getD_replicate_lt false false arts.length i hi] at hw
        exact Bool.noConfusion hw
      · intro i hi hex
        rw [show (crawlInit arts).exited = List.replicate arts.length false from rfl,
          getD_replicate_lt false true arts.length i hi] at hex
        exact Bool.noConfusion hex
      · intro _
        show 0 = totalSubm (crawlInit arts)
        simp [totalSubm, crawlInit]
      · intro hf
        simp [crawlInit] at hf
  | @tail sb sc h1 h2 ih =>
      obtain ⟨L1, L2, L3, hdone, hwsub, hexsub, hallz, hflsh⟩ := ih
      cases h2 with
      | submitFeed hlt =>
          exact ⟨L1, L2, L3, hdone, hwsub, hexsub, hallz, hflsh⟩
      | submitArticle i hif hex hw hlt =>
          have hiL : i < arts.length := by
            by_contra hc
            rw [List.getD_eq_default _ _ (by rw [L2]; exact Nat.le_of_not_lt hc)] at hex
            exact Bool.noConfusion hex
          have hsum : (sb.subm.set i (sb.subm.getD i 0 + 1)).sum = sb.subm.sum + 1 :=
            sum_set_getD sb.subm i (by rw [L1]; exact hiL)
          refine ⟨?_, L2, L3, ?_, ?_, ?_, ?_, hflsh⟩
          · show (sb.subm.set i (sb.subm.getD i 0 + 1)).length = arts.length
            rw [List.length_set]
            exact L1
          · show sb.artDone ≤ (sb.subm.set i (sb.subm.getD i 0 + 1)).sum
            rw [hsum]
            exact Nat.le_succ_of_le hdone
          · intro j hj hwj
            have hwj2 : sb.waited.getD j false = true := hwj
            by_cases hji : j = i
            · subst hji
              rw [hwj2] at hw
              exact Bool.noConfusion hw
            · show (sb.subm.set i (sb.subm.getD i 0 + 1)).getD j 0 = arts.getD j 0
              rw [getD_set_ne sb.subm i j _ 0 hji]
              exact hwsub j hj hwj2
          · intro j hj hexj
            have hexj2 : sb.exited.getD j true = true := hexj
            by_cases hji : j = i
            · subst hji
              rw [hexj2] at hex
              exact Bool.noConfusion hex
            · have hold := hexsub j hj hexj2
              refine ⟨?_, hold.2⟩
              show (sb.subm.set i (sb.subm.getD i 0 + 1)).getD j 0 = arts.getD j 0
              rw [getD_set_ne sb.subm i j _ 0 hji]
              exact hold.1
          · intro hall
            have hwi : sb.waited.getD i false = true :=
              hall i hiL (Nat.pos_iff_ne_zero.mp (Nat.lt_of_le_of_lt (Nat.zero_le _) hlt))
            rw [hwi] at hw
            exact Bool.noConfusion hw
      | completeArticle hlt =>
          refine ⟨L1, L2, L3, hlt, hwsub, hexsub, ?_, hflsh⟩
          intro hall
          have hall2 := hallz hall
          exact absurd (hall2 ▸ hlt) (lt_irrefl _)
      | observeDrain i hif hex hw hz heq hdr =>
          have hiL : i < arts.length := by
            by_contra hc
            rw [List.getD_eq_default _ _ (by rw [L2]; exact Nat.le_of_not_lt hc)] at hex
            exact Bool.noConfusion hex
          refine ⟨L1, L2, ?_, hdone, ?_, ?_, ?_, hflsh⟩
          · show (sb.waited.set i true).length = arts.length
            rw [List.length_set]
            exact L3
          · intro j hj hwj
            have hwj2 : (sb.waited.set i true).getD j false = true := hwj
            by_cases hji : j = i
            · subst hji
              exact heq
            · rw [getD_set_ne sb.waited i j true false hji] at hwj2
              exact hwsub j hj hwj2
          · intro j hj hexj
            have hexj2 : sb.exited.getD j true = true := hexj
            have hold := hexsub j hj hexj2
            refine ⟨hold.1, ?_⟩
            intro hzj
            by_cases hji : j = i
            · subst hji
              exact getD_set_self sb.waited j true false (by rw [L3]; exact hj)
            · rw [getD_set_ne sb.waited i j true false hji]
              exact hold.2 hzj
          · intro _
            exact hdr
      | exitFeed i hif hex heq hwcond =>
          have hiL : i < arts.length := by
            by_contra hc
            rw [List.getD_eq_default _ _ (by rw [L2]; exact Nat.le_of_not_lt hc)] at hex
            exact Bool.noConfusion hex
          refine ⟨L1, ?_, L3, hdone, hwsub, ?_, hallz, ?_⟩
          · show (sb.exited.set i true).length = arts.length
            rw [List.length_set]
            exact L2
          · intro j hj hexj
            have hexj2 : (sb.exited.set i true).getD j true = true := hexj
            by_cases hji : j = i
            · subst hji
              exact ⟨heq, hwcond⟩
            · rw [getD_set_ne sb.exited i j true true hji] at hexj2
              exact hexsub j hj hexj2
          · intro hf k hk
            have hf2 : sb.flushed = true := hf
            by_cases hki : k = i
            · subst hki
              exact getD_set_self sb.exited k true true (by rw [L2]; exact hiL)
            · rw [getD_set_ne sb.exited i k true true hki]
              exact hflsh hf2 k hk
      | flush hfs hall hnf =>
          exact ⟨L1, L2, L3, hdone, hwsub, hexsub, hallz, fun _ k hk => hall k hk⟩

/-- C2: in every interleaving of the crawl run, when the coordinator starts
the flush loop - which it does only after submitting every feed task and
draining the feed pool, each feed task in turn having let its article-pool
wait return after its own submissions - every article task that can ever be
submitted has been submitted and has completed, so no article task is still
pending or running and no further article task can be submitted. -/
theorem c2_flush_barrier (arts : List Nat) (s : CrawlState)
    (h : CrawlReach arts (crawlInit arts) s) (hf : s.flushed = true) :
    s.artDone = totalSubm s ∧
    (∀ i, i < arts.length → s.subm.getD i 0 = arts.getD i 0) := by
  obtain ⟨L1, L2, L3, hdone, hwsub, hexsub, hallz, hflsh⟩ :=
    crawlReach_invariant arts s h
  have hex := hflsh hf
  refine ⟨hallz (fun i hi hz => (hexsub i hi (hex i hi)).2 hz), ?_⟩
  exact fun i hi => (hexsub i hi (hex i hi)).1

/-- Witness for C2: a run with one feed carrying one article, driven to the
flushed state, has its article submitted and completed. -/
theorem c2_flush_barrier_witness :
    (⟨1, [1], [true], [true], 1, true⟩ : CrawlState).artDone =
      totalSubm ⟨1, [1], [true], [true], 1, true⟩ ∧
    (∀ i, i < ([1] : List Nat).length →
      (⟨1, [1], [true], [true], 1, true⟩ : CrawlState).subm.getD i 0 =
        ([1] : List Nat).getD i 0) := by
  have t1 : CrawlStep [1] (crawlInit [1]) ⟨1, [0], [false], [false], 0, false⟩ :=
    CrawlStep.submitFeed (crawlInit [1]) (by decide)
  have t2 : CrawlStep [1] ⟨1, [0], [false], [false], 0, false⟩
      ⟨1, [1], [false], [false], 0, false⟩ :=
    CrawlStep.submitArticle ⟨1, [0], [false], [false], 0, false⟩ 0
      (by decide) rfl rfl (by decide)
  have t3 : CrawlStep [1] ⟨1, [1], [false], [false], 0, false⟩
      ⟨1, [1], [false], [false], 1, false⟩ :=
    CrawlStep.completeArticle ⟨1, [1], [false], [false], 0, false⟩ (by decide)
  have t4 : CrawlStep [1] ⟨1, [1], [false], [false], 1, false⟩
      ⟨1, [1], [false], [true], 1, false⟩ :=
    CrawlStep.observeDrain ⟨1, [1], [false], [false], 1, false⟩ 0
      (by decide) rfl rfl (by decide) rfl rfl
  have t5 : CrawlStep [1] ⟨1, [1], [false], [true], 1, false⟩
      ⟨1, [1], [true], [true], 1, false⟩ :=
    CrawlStep.exitFeed ⟨1, [1], [false], [true], 1, false⟩ 0
      (by decide) rfl rfl (fun _ => rfl)
  have t6 : CrawlStep [1] ⟨1, [1], [true], [true], 1, false⟩
      ⟨1, [1], [true], [true], 1, true⟩ :=
    CrawlStep.flush ⟨1, [1], [true], [true], 1, false⟩ rfl
      (by
        intro i hi
        simp only [List.length_cons, List.length_nil] at hi
        have hi0 : i = 0 := by omega
        subst hi0
        rfl)
      rfl
  have hreach : CrawlReach [1] (crawlInit [1]) ⟨1, [1], [true], [true], 1, true⟩ :=
    Relation.ReflTransGen.tail (Relation.ReflTransGen.tail
      (Relation.ReflTransGen.tail (Relation.ReflTransGen.tail
        (Relation.ReflTransGen.tail (Relation.ReflTransGen.tail
          Relation.ReflTransGen.refl t1) t2) t3) t4) t5) t6
  exact c2_flush_barrier [1] ⟨1, [1], [true], [true], 1, true⟩ hreach rfl
